import Mathlib

/-!
# Device telemetry state engine — verification

A shallow embedding of the MQTT dashboard's device telemetry state engine
(`src/App.js`, canonical variant: the one computing `sortedIds`), together
with proofs about its behaviour.

Modelling conventions:
* JSON numbers are modelled as integers (`Int`); none of the verified
  properties depend on fractional values.
* A JavaScript `Date` value is its millisecond time value, `Option Int`,
  where `none` models an Invalid Date (time value `NaN`).
* `undefined` is modelled as `Option Json` being `none` (JSON.parse never
  produces `undefined`, but property access and destructuring do).
* The device store (a JS object with string keys) is an association list in
  insertion order; the engine only ever creates non-index string keys, for
  which JS object enumeration order is insertion order.
* `localeCompare` is modelled as code-point lexicographic string comparison.
* Wall-clock reads (`new Date()`, `Date.now()`) are passed in explicitly as
  an integer millisecond parameter `now`.
-/

namespace MqttDashboard

/-- JSON values, as produced by a successful `JSON.parse`. -/
inductive Json where
  | null
  | bool (b : Bool)
  | num (n : Int)
  | str (s : String)
  | arr (elems : List Json)
  | obj (entries : List (String × Json))

/-- JavaScript `ToString` on a JSON value: `Array.prototype.toString` joins
element strings with commas, rendering `null` elements as the empty string;
plain objects render as `"[object Object]"`. -/
def jsToString : Json → String
  | .null => "null"
  | .bool true => "true"
  | .bool false => "false"
  | .num n => toString n
  | .str s => s
  | .arr elems =>
      String.intercalate "," (elems.attach.map (fun x =>
        match x with
        | ⟨Json.null, _⟩ => ""
        | ⟨j, _hj⟩ => jsToString j))
  | .obj _ => "[object Object]"
decreasing_by
  simp_wf
  have := List.sizeOf_lt_of_mem _hj
  omega

/-- JavaScript `ToString`/`ToPropertyKey` on a possibly-`undefined` value. -/
def jsKeyString : Option Json → String
  | none => "undefined"
  | some j => jsToString j

/-- JavaScript property access `j.k` on a non-null JSON value: objects look
the key up, everything else (primitives, arrays) yields `undefined` for the
keys this program reads. Access on `null` throws; callers model that case
explicitly and never reach this function with it. -/
def getProp : Json → String → Option Json
  | .obj entries, k => (entries.find? (fun e => e.1 == k)).map (·.2)
  | _, _ => none

/-- JavaScript `StringToNumber`, restricted to the integer fragment of this
model: surrounding whitespace is trimmed, the empty string is `0`, an
optionally signed decimal integer is its value, anything else is `NaN`
(`none`). -/
def stringToNumber (s : String) : Option Int :=
  let t := s.trim
  if t = "" then some 0 else t.toInt?

/-- JavaScript `ToNumber` of a possibly-`undefined` JSON value; `none` is
`NaN`. `undefined` is `NaN`, `null` is `0`, booleans are `0`/`1`, arrays
convert through their string form, plain objects are `NaN`. -/
def toNumber : Option Json → Option Int
  | none => none
  | some .null => some 0
  | some (.bool b) => some (if b then 1 else 0)
  | some (.num n) => some n
  | some (.str s) => stringToNumber s
  | some (.arr elems) => stringToNumber (jsToString (.arr elems))
  | some (.obj _) => none

/-- One entry of a device's chart history: `\x7b time, data \x7d` as built by
the message handler. `time` is the `Date` millisecond value, `none` for an
Invalid Date. -/
structure HistoryEntry where
  time : Option Int
  data : Json

/-- Per-device state as stored in the `devices` map: `name`, bounded
`history`, `lastSeen` receipt time (ms), and the `status` string. -/
structure DeviceState where
  name : Option Json
  history : List HistoryEntry
  lastSeen : Int
  status : String

/-- The `devices` object: an insertion-ordered map from device key to state. -/
abbrev Store := List (String × DeviceState)

/-- Object key lookup `st[key]`. -/
def storeGet (st : Store) (key : String) : Option DeviceState :=
  (st.find? (fun e => e.1 == key)).map (·.2)

/-- The spread-update `\x7b ...prev, [key]: dev \x7d` on a JS object with
string keys: an existing key keeps its position and receives the new value,
a new key is appended at the end. -/
def upsert (st : Store) (key : String) (dev : DeviceState) : Store :=
  if st.any (fun e => e.1 == key) then
    st.map (fun e => if e.1 == key then (key, dev) else e)
  else
    st ++ [(key, dev)]

/-- `slice(-n)` on an array: the suffix of the most recent `n` elements
(the whole array when it is shorter). -/
def sliceLast (n : Nat) (l : List HistoryEntry) : List HistoryEntry :=
  l.drop (l.length - n)

/-- The sample selected from a decoded payload's `fields`:
`Array.isArray(fields) && fields.length ? fields[fields.length - 1] : \x7b\x7d`. -/
def latestOf : Option Json → Json
  | some (.arr elems) => if elems.isEmpty then .obj [] else elems.getLastD (.obj [])
  | _ => .obj []

/-- The history entry built for a sample:
`\x7b time: new Date(latest.timestamp * 1000), data: latest \x7d`.
A `NaN`-producing `timestamp` (absent, or not coercible to a number) makes
the `Date` invalid (`none`). -/
def mkEntry (latest : Json) : HistoryEntry :=
  { time := (toNumber (getProp latest "timestamp")).map (fun n => n * 1000)
    data := latest }

/-- The `setDevices` updater of the message handler: append the new entry to
the device's history, truncate to the last 20, and upsert the device with
the incoming name, receipt time `now`, and status `"online"`. -/
def applyEvent (prev : Store) (id name : Option Json) (latest : Json) (now : Int) : Store :=
  let key := jsKeyString id
  let prevHistory := ((storeGet prev key).map DeviceState.history).getD []
  let history := sliceLast 20 (prevHistory ++ [mkEntry latest])
  upsert prev key { name := name, history := history, lastSeen := now, status := "online" }

/-- Result of delivering one raw message to the `mqtt_message` handler. -/
inductive Outcome where
  | droppedSilently
  | threwTypeError
  | applied (st : Store)

/-- The full `mqtt_message` handler. The raw transport text is modelled by
its parse result: `none` for text on which `JSON.parse` throws (caught:
silent drop). A parse result of JSON `null` also drops silently, because
`null.payload` throws inside the `try`. The destructuring
`const \x7b id, name, fields \x7d = payload` happens after the `catch`, so a
missing or `null` `payload` throws a `TypeError` past the handler; likewise
`latest.timestamp` throws when the selected sample is `null`. -/
def processMessage (raw : Option Json) (now : Int) (prev : Store) : Outcome :=
  match raw with
  | none => .droppedSilently
  | some .null => .droppedSilently
  | some parsed =>
    match getProp parsed "payload" with
    | none => .threwTypeError
    | some .null => .threwTypeError
    | some payload =>
      match latestOf (getProp payload "fields") with
      | .null => .threwTypeError
      | latest =>
        .applied (applyEvent prev (getProp payload "id") (getProp payload "name") latest now)

/-- The store after a handler outcome: only an applied event changes it. -/
def outcomeStore (prev : Store) : Outcome → Store
  | .applied st => st
  | _ => prev

/-- The per-device body of the offline-detection sweep:
`status: now - dev.lastSeen.getTime() > 30000 ? "offline" : "online"`,
all other fields spread unchanged. -/
def sweepDevice (now : Int) (dev : DeviceState) : DeviceState :=
  { dev with status := if now - dev.lastSeen > 30000 then "offline" else "online" }

/-- The offline-detection interval callback: rebuild the store, reclassifying
every device's status from its `lastSeen` time. -/
def sweep (now : Int) (st : Store) : Store :=
  st.map (fun e => (e.1, sweepDevice now e.2))

/-- `total`: the number of tracked devices, `Object.keys(devices).length`. -/
def totalCount (st : Store) : Nat := st.length

/-- `online`: the number of devices whose status is `"online"`. -/
def onlineCount (st : Store) : Nat :=
  (st.filter (fun e => e.2.status == "online")).length

/-- `offline`: computed in the source as `total - online`. -/
def offlineCount (st : Store) : Nat := totalCount st - onlineCount st

/-- The grouping key of a device id: the first three colon-delimited
segments, `a.split(":").slice(0, 3).join(":")`. -/
def groupKey (s : String) : String :=
  String.intercalate ":" ((s.splitOn ":").take 3)

/-- The sort comparator as a Boolean order: `a` precedes-or-equals `b` when
the comparator `ga === gb ? a.localeCompare(b) : ga.localeCompare(gb)`
returns a non-positive number (`localeCompare` modelled as code-point
lexicographic comparison). -/
def devLE (a b : String) : Bool :=
  if groupKey a = groupKey b then decide (a ≤ b) else decide (groupKey a ≤ groupKey b)

/-- `sortedIds`: `[...ids].sort(comparator)`. The comparator is total and
antisymmetric, so any correct sort produces the unique sorted permutation;
`mergeSort` is used as the model. -/
def sortedIds (ids : List String) : List String :=
  ids.mergeSort devLE

/-- One successfully decoded event, as handed to the `setDevices` updater. -/
structure AppEvent where
  id : Option Json
  name : Option Json
  latest : Json
  now : Int

/-- Apply a sequence of decoded events in arrival order. -/
def applyAll (st : Store) (evs : List AppEvent) : Store :=
  evs.foldl (fun s e => applyEvent s e.id e.name e.latest e.now) st

/-- The history the handler would read for device `d`:
`st[d]?.history || []`. -/
def histOf (st : Store) (d : String) : List HistoryEntry :=
  ((storeGet st d).map DeviceState.history).getD []

/-- Stores reachable from the initial empty `devices` map by any interleaving
of delivered messages and sweep ticks. -/
inductive Reachable : Store → Prop where
  | init : Reachable []
  | message (raw : Option Json) (now : Int) {st : Store} :
      Reachable st → Reachable (outcomeStore st (processMessage raw now st))
  | sweeping (now : Int) {st : Store} :
      Reachable st → Reachable (sweep now st)

/-! ## Bounded-suffix lemmas for `slice(-20)` -/

theorem sliceLast_length_le (n : Nat) (l : List HistoryEntry) :
    (sliceLast n l).length ≤ n := by
  simp only [sliceLast, List.length_drop]
  omega

theorem sliceLast_of_length_le {n : Nat} {l : List HistoryEntry} (h : l.length ≤ n) :
    sliceLast n l = l := by
  simp only [sliceLast, Nat.sub_eq_zero_of_le h, List.drop_zero]

theorem sliceLast_eq_reverse_take (n : Nat) (l : List HistoryEntry) :
    sliceLast n l = (l.reverse.take n).reverse := by
  rw [sliceLast, List.take_reverse, List.reverse_reverse]

theorem take_append_take (n : Nat) (c d : List HistoryEntry) :
    List.take n (c ++ List.take n d) = List.take n (c ++ d) := by
  rw [List.take_append_eq_append_take, List.take_append_eq_append_take,
    List.take_take, Nat.min_eq_left (Nat.sub_le n c.length)]

theorem sliceLast_append_sliceLast (n : Nat) (a b : List HistoryEntry) :
    sliceLast n (sliceLast n a ++ b) = sliceLast n (a ++ b) := by
  simp only [sliceLast_eq_reverse_take, List.reverse_append, List.reverse_reverse,
    take_append_take]

/-! ## Store lookup and upsert lemmas -/

theorem storeGet_cons (e : String × DeviceState) (st : Store) (d : String) :
    storeGet (e :: st) d = if e.1 = d then some e.2 else storeGet st d := by
  by_cases h : e.1 = d
  · rw [if_pos h, storeGet, List.find?_cons_of_pos _ (by simpa using h)]
    rfl
  · rw [if_neg h, storeGet, List.find?_cons_of_neg _ (by simpa using h)]
    rfl

theorem storeGet_map_overwrite_self (st : Store) (key : String) (dev : DeviceState)
    (h : st.any (fun e => e.1 == key) = true) :
    storeGet (st.map (fun e => if e.1 == key then (key, dev) else e)) key = some dev := by
  induction st with
  | nil => simp at h
  | cons e st ih =>
    by_cases he : e.1 = key
    · simp only [List.map_cons, if_pos (by simpa using he : (e.1 == key) = true),
        storeGet_cons, if_pos rfl, if_true, eq_self_iff_true]
    · simp only [List.any_cons, (by simpa using he : (e.1 == key) = false),
        Bool.false_or] at h
      simp only [List.map_cons, if_neg (by simpa using he : ¬(e.1 == key) = true),
        storeGet_cons, if_neg he]
      exact ih h

theorem storeGet_append_single_self (st : Store) (key : String) (dev : DeviceState)
    (h : st.any (fun e => e.1 == key) = false) :
    storeGet (st ++ [(key, dev)]) key = some dev := by
  induction st with
  | nil => simp [storeGet]
  | cons e st ih =>
    simp only [List.any_cons, Bool.or_eq_false_iff] at h
    rw [List.cons_append, storeGet_cons, if_neg (by simpa using h.1)]
    exact ih h.2

theorem storeGet_upsert_self (st : Store) (key : String) (dev : DeviceState) :
    storeGet (upsert st key dev) key = some dev := by
  by_cases h : st.any (fun e => e.1 == key)
  · rw [upsert, if_pos h]
    exact storeGet_map_overwrite_self st key dev h
  · rw [upsert, if_neg h]
    exact storeGet_append_single_self st key dev (Bool.not_eq_true _ ▸ h)

theorem storeGet_map_overwrite_ne (st : Store) (key : String) (dev : DeviceState)
    {d : String} (hd : d ≠ key) :
    storeGet (st.map (fun e => if e.1 == key then (key, dev) else e)) d = storeGet st d := by
  induction st with
  | nil => rfl
  | cons e st ih =>
    by_cases he : e.1 = key
    · have hke : key ≠ d := fun h => hd h.symm
      have hed : e.1 ≠ d := he ▸ hke
      simp only [List.map_cons, if_pos (by simpa using he : (e.1 == key) = true),
        storeGet_cons, if_neg hke, if_neg hed]
      exact ih
    · simp only [List.map_cons, if_neg (by simpa using he : ¬(e.1 == key) = true),
        storeGet_cons]
      by_cases hed : e.1 = d
      · rw [if_pos hed, if_pos hed]
      · rw [if_neg hed, if_neg hed]
        exact ih

theorem storeGet_append_single_ne (st : Store) (key : String) (dev : DeviceState)
    {d : String} (hd : d ≠ key) :
    storeGet (st ++ [(key, dev)]) d = storeGet st d := by
  induction st with
  | nil =>
    rw [List.nil_append, storeGet_cons, if_neg (fun h => hd h.symm)]
  | cons e st ih =>
    rw [List.cons_append, storeGet_cons, storeGet_cons]
    by_cases hed : e.1 = d
    · rw [if_pos hed, if_pos hed]
    · rw [if_neg hed, if_neg hed]
      exact ih

theorem storeGet_upsert_ne (st : Store) (key : String) (dev : DeviceState)
    {d : String} (hd : d ≠ key) :
    storeGet (upsert st key dev) d = storeGet st d := by
  by_cases h : st.any (fun e => e.1 == key)
  · rw [upsert, if_pos h]
    exact storeGet_map_overwrite_ne st key dev hd
  · rw [upsert, if_neg h]
    exact storeGet_append_single_ne st key dev hd

theorem mem_keys_upsert (st : Store) (key : String) (dev : DeviceState) (x : String) :
    x ∈ (upsert st key dev).map Prod.fst ↔ x ∈ st.map Prod.fst ∨ x = key := by
  rw [upsert]
  split
  next h =>
    simp only [List.map_map, List.mem_map, Function.comp]
    constructor
    · rintro ⟨e, he, hx⟩
      by_cases hek : e.1 = key
      · rw [if_pos (by simpa using hek : (e.1 == key) = true)] at hx
        exact Or.inr hx.symm
      · rw [if_neg (by simpa using hek : ¬(e.1 == key) = true)] at hx
        exact Or.inl ⟨e, he, hx⟩
    · rintro (⟨e, he, hx⟩ | rfl)
      · by_cases hek : e.1 = key
        · rw [List.any_eq_true] at h
          obtain ⟨a, ha, hak⟩ := h
          refine ⟨a, ha, ?_⟩
          rw [if_pos hak]
          rw [← hx, hek]
        · exact ⟨e, he, by rw [if_neg (by simpa using hek : ¬(e.1 == key) = true)]; exact hx⟩
      · rw [List.any_eq_true] at h
        obtain ⟨a, ha, hak⟩ := h
        exact ⟨a, ha, by rw [if_pos hak]⟩
  next =>
    simp [List.map_append, List.mem_append]

theorem mem_upsert {st : Store} {key : String} {dev : DeviceState} {e : String × DeviceState}
    (h : e ∈ upsert st key dev) : e.2 = dev ∨ e ∈ st := by
  rw [upsert] at h
  split at h
  · rw [List.mem_map] at h
    obtain ⟨a, ha, he⟩ := h
    by_cases hak : a.1 = key
    · rw [if_pos (by simpa using hak : (a.1 == key) = true)] at he
      rw [← he]
      exact Or.inl rfl
    · rw [if_neg (by simpa using hak : ¬(a.1 == key) = true)] at he
      rw [← he]
      exact Or.inr ha
  · rw [List.mem_append] at h
    rcases h with h | h
    · exact Or.inr h
    · simp only [List.mem_singleton] at h
      subst h
      exact Or.inl rfl

/-! ## Sweep lemmas -/

theorem storeGet_sweep (now : Int) (st : Store) (d : String) :
    storeGet (sweep now st) d = (storeGet st d).map (sweepDevice now) := by
  induction st with
  | nil => rfl
  | cons e st ih =>
    simp only [sweep, List.map_cons, storeGet, List.find?_cons]
    by_cases hed : e.1 == d
    · simp [hed]
    · simp only [hed]
      exact ih

theorem keys_sweep (now : Int) (st : Store) :
    (sweep now st).map Prod.fst = st.map Prod.fst := by
  simp [sweep, List.map_map, Function.comp]

/-! ## Concrete data for witnesses -/

/-- A concrete stored device used by witness instantiations. -/
def devTank : DeviceState :=
  { name := some (Json.str "Tank1"), history := [], lastSeen := 0, status := "online" }

/-! ## Claim theorems -/

/-- C5: applying any successfully decoded event upserts the target device
with `lastSeen` set to the wall-clock receipt time `now`, status set to
`"online"` immediately (even when the prior store had it `"offline"` — there
is no hysteresis), and the name overwritten with the incoming event's name. -/
theorem apply_sets_online_now_and_name (prev : Store) (id name : Option Json)
    (latest : Json) (now : Int) :
    storeGet (applyEvent prev id name latest now) (jsKeyString id)
      = some { name := name
               history := sliceLast 20 (histOf prev (jsKeyString id) ++ [mkEntry latest])
               lastSeen := now
               status := "online" } := by
  unfold applyEvent
  exact storeGet_upsert_self prev (jsKeyString id) _

/-- C4: the liveness sweep at time `now` marks a tracked device `"offline"`
exactly when `now - lastSeen > 30000` milliseconds, `"online"` otherwise; in
particular a device last seen at `t0` with no further events is `"offline"`
after the sweep at `t0 + 31000` and still `"online"` after the sweep at
`t0 + 29000`. -/
theorem sweep_offline_iff_stale (st : Store) (now : Int) (d : String) (dev : DeviceState)
    (h : storeGet st d = some dev) :
    storeGet (sweep now st) d
      = some { dev with status := if now - dev.lastSeen > 30000 then "offline" else "online" }
    ∧ (storeGet (sweep (dev.lastSeen + 31000) st) d).map DeviceState.status = some "offline"
    ∧ (storeGet (sweep (dev.lastSeen + 29000) st) d).map DeviceState.status = some "online" := by
  refine ⟨?_, ?_, ?_⟩
  · rw [storeGet_sweep, h]
    rfl
  · rw [storeGet_sweep, h, Option.map_some']
    simp only [sweepDevice]
    rw [if_pos (by omega)]
    rfl
  · rw [storeGet_sweep, h, Option.map_some']
    simp only [sweepDevice]
    rw [if_neg (by omega)]
    rfl

/-- Witness for C4 at a concrete store: a device last seen at time 0 is
offline at the sweep at 31000 and online at the sweep at 29000. -/
theorem sweep_offline_iff_stale_witness :
    (storeGet (sweep 31000 [("AA:BB:CC:01", devTank)]) "AA:BB:CC:01").map DeviceState.status
      = some "offline"
    ∧ (storeGet (sweep 29000 [("AA:BB:CC:01", devTank)]) "AA:BB:CC:01").map DeviceState.status
      = some "online" := by
  have h := sweep_offline_iff_stale [("AA:BB:CC:01", devTank)] 0 "AA:BB:CC:01" devTank rfl
  refine ⟨?_, ?_⟩
  · have h1 := h.2.1
    rw [show devTank.lastSeen + 31000 = 31000 from by rfl] at h1
    exact h1
  · have h2 := h.2.2
    rw [show devTank.lastSeen + 29000 = 29000 from by rfl] at h2
    exact h2

/-- C9: a liveness sweep preserves the store's key list (hence its key set:
it never removes a device) and leaves every device's name, history and
lastSeen unchanged; the only field it may change is the status. -/
theorem sweep_frame (st : Store) (now : Int) :
    (sweep now st).map Prod.fst = st.map Prod.fst
    ∧ ∀ d dev, storeGet st d = some dev →
        ∃ s, storeGet (sweep now st) d
          = some { name := dev.name, history := dev.history
                   lastSeen := dev.lastSeen, status := s } := by
  refine ⟨keys_sweep now st, fun d dev h => ⟨(sweepDevice now dev).status, ?_⟩⟩
  rw [storeGet_sweep, h]
  rfl

/-- Witness for C9 at a concrete one-device store. -/
theorem sweep_frame_witness :
    (sweep 40000 [("AA:BB:CC:01", devTank)]).map Prod.fst = ["AA:BB:CC:01"]
    ∧ ∃ s, storeGet (sweep 40000 [("AA:BB:CC:01", devTank)]) "AA:BB:CC:01"
        = some { name := devTank.name, history := devTank.history
                 lastSeen := devTank.lastSeen, status := s } := by
  have h := sweep_frame [("AA:BB:CC:01", devTank)] 40000
  exact ⟨h.1, h.2 "AA:BB:CC:01" devTank rfl⟩

/-- C10: applying a decoded event only touches the target device key: the
state of every other key is unchanged, and the key set of the result is the
prior key set united with the event's device key. -/
theorem apply_frame (prev : Store) (id name : Option Json) (latest : Json) (now : Int)
    (d : String) (hd : d ≠ jsKeyString id) :
    storeGet (applyEvent prev id name latest now) d = storeGet prev d
    ∧ ∀ x, x ∈ (applyEvent prev id name latest now).map Prod.fst
        ↔ x ∈ prev.map Prod.fst ∨ x = jsKeyString id := by
  constructor
  · unfold applyEvent
    exact storeGet_upsert_ne prev (jsKeyString id) _ hd
  · intro x
    unfold applyEvent
    exact mem_keys_upsert prev (jsKeyString id) _ x

/-- Witness for C10: applying an event for device `"AA:BB:CC:02"` over a
store holding `"AA:BB:CC:01"` leaves the latter untouched. -/
theorem apply_frame_witness :
    storeGet (applyEvent [("AA:BB:CC:01", devTank)] (some (Json.str "AA:BB:CC:02"))
        (some (Json.str "Tank2")) (Json.obj []) 2000) "AA:BB:CC:01"
      = storeGet [("AA:BB:CC:01", devTank)] "AA:BB:CC:01"
    ∧ ∀ x, x ∈ (applyEvent [("AA:BB:CC:01", devTank)] (some (Json.str "AA:BB:CC:02"))
        (some (Json.str "Tank2")) (Json.obj []) 2000).map Prod.fst
        ↔ x ∈ [("AA:BB:CC:01", devTank)].map Prod.fst ∨ x = jsKeyString (some (Json.str "AA:BB:CC:02")) := by
  exact apply_frame [("AA:BB:CC:01", devTank)] (some (Json.str "AA:BB:CC:02"))
    (some (Json.str "Tank2")) (Json.obj []) 2000 "AA:BB:CC:01"
    (by simp [jsKeyString, jsToString])

/-! ## History evolution under applied events -/

theorem histOf_applyEvent_self (st : Store) (id name : Option Json) (latest : Json) (now : Int) :
    histOf (applyEvent st id name latest now) (jsKeyString id)
      = sliceLast 20 (histOf st (jsKeyString id) ++ [mkEntry latest]) := by
  unfold histOf applyEvent
  rw [storeGet_upsert_self]
  rfl

theorem histOf_applyEvent_ne (st : Store) (id name : Option Json) (latest : Json) (now : Int)
    {d : String} (hd : d ≠ jsKeyString id) :
    histOf (applyEvent st id name latest now) d = histOf st d := by
  unfold histOf applyEvent
  rw [storeGet_upsert_ne _ _ _ hd]

theorem histOf_applyAll (evs : List AppEvent) (st : Store) (d : String)
    (h : (histOf st d).length ≤ 20) :
    histOf (applyAll st evs) d
      = sliceLast 20 (histOf st d
          ++ (evs.filter (fun e => jsKeyString e.id == d)).map (fun e => mkEntry e.latest)) := by
  induction evs generalizing st with
  | nil =>
    simp only [applyAll, List.foldl_nil, List.filter_nil, List.map_nil, List.append_nil]
    exact (sliceLast_of_length_le h).symm
  | cons e evs ih =>
    have happ : applyAll st (e :: evs)
        = applyAll (applyEvent st e.id e.name e.latest e.now) evs := rfl
    by_cases hk : jsKeyString e.id = d
    · have hself : histOf (applyEvent st e.id e.name e.latest e.now) d
          = sliceLast 20 (histOf st d ++ [mkEntry e.latest]) := by
        rw [← hk]
        exact histOf_applyEvent_self st e.id e.name e.latest e.now
      have hlen : (histOf (applyEvent st e.id e.name e.latest e.now) d).length ≤ 20 := by
        rw [hself]
        exact sliceLast_length_le 20 _
      rw [happ, ih _ hlen, hself, sliceLast_append_sliceLast,
        List.filter_cons_of_pos (by simpa using hk), List.map_cons, List.append_assoc,
        List.singleton_append]
    · have hne : histOf (applyEvent st e.id e.name e.latest e.now) d = histOf st d :=
        histOf_applyEvent_ne st e.id e.name e.latest e.now (fun hdk => hk hdk.symm)
      rw [happ, ih _ (hne ▸ h), hne, List.filter_cons_of_neg (by simpa using hk)]

/-- C1: for every device, after any sequence of applied events starting from
the empty store, the retained history is exactly the suffix of the most
recently arrived 20 entries for that device (oldest evicted first), the
entries appearing in arrival order of the events — not in source-timestamp
order — and its length never exceeds 20. -/
theorem history_bounded_fifo (evs : List AppEvent) (d : String) :
    histOf (applyAll [] evs) d
      = sliceLast 20 ((evs.filter (fun e => jsKeyString e.id == d)).map
          (fun e => mkEntry e.latest))
    ∧ (histOf (applyAll [] evs) d).length ≤ 20 := by
  have h := histOf_applyAll evs [] d (by simp [histOf, storeGet])
  rw [show histOf ([] : Store) d = [] from rfl, List.nil_append] at h
  exact ⟨h, h ▸ sliceLast_length_le 20 _⟩

/-! ## Status two-valuedness and summary accounting -/

theorem processMessage_applied {raw : Option Json} {now : Int} {prev st : Store}
    (h : processMessage raw now prev = .applied st) :
    ∃ id name latest, st = applyEvent prev id name latest now := by
  unfold processMessage at h
  split at h
  · exact absurd h (by simp)
  · exact absurd h (by simp)
  · split at h
    · exact absurd h (by simp)
    · exact absurd h (by simp)
    · split at h
      · exact absurd h (by simp)
      · cases h
        exact ⟨_, _, _, rfl⟩

theorem mem_applyEvent {prev : Store} {id name : Option Json} {latest : Json} {now : Int}
    {e : String × DeviceState} (he : e ∈ applyEvent prev id name latest now) :
    e.2.status = "online" ∨ e ∈ prev := by
  unfold applyEvent at he
  rcases mem_upsert he with h | h
  · left
    rw [h]
  · right
    exact h

theorem statuses_reachable {st : Store} (h : Reachable st) :
    ∀ e ∈ st, e.2.status = "online" ∨ e.2.status = "offline" := by
  induction h with
  | init =>
    intro e he
    exact absurd he (List.not_mem_nil e)
  | message raw now hr ih =>
    intro e he
    rename_i stp
    cases ho : processMessage raw now stp with
    | droppedSilently =>
      rw [ho] at he
      exact ih e he
    | threwTypeError =>
      rw [ho] at he
      exact ih e he
    | applied s =>
      rw [ho] at he
      obtain ⟨id, name, latest, rfl⟩ := processMessage_applied ho
      rcases mem_applyEvent he with h1 | h1
      · exact Or.inl h1
      · exact ih e h1
  | sweeping now hr ih =>
    intro e he
    rw [sweep, List.mem_map] at he
    obtain ⟨a, _, rfl⟩ := he
    by_cases hc : now - a.2.lastSeen > 30000
    · right
      simp [sweepDevice, hc]
    · left
      simp [sweepDevice, hc]

theorem filter_online_add_offline (st : Store)
    (h : ∀ e ∈ st, e.2.status = "online" ∨ e.2.status = "offline") :
    (st.filter (fun e => e.2.status == "online")).length
      + (st.filter (fun e => e.2.status == "offline")).length = st.length := by
  induction st with
  | nil => rfl
  | cons e st ih =>
    have ht := ih (fun x hx => h x (List.mem_cons_of_mem e hx))
    rcases h e (List.mem_cons_self e st) with ho | ho
    · rw [List.filter_cons_of_pos (by simp [ho]), List.filter_cons_of_neg (by simp [ho]),
        List.length_cons, List.length_cons]
      omega
    · rw [List.filter_cons_of_neg (by simp [ho]), List.filter_cons_of_pos (by simp [ho]),
        List.length_cons, List.length_cons]
      omega

/-- C6: in every store reachable by any interleaving of delivered messages
and sweeps, the fleet summary satisfies `online + offline = total`, the
`offline` figure counts exactly the `"offline"` devices, and every tracked
device's status is exactly one of `"online"` or `"offline"` — there is no
third state. -/
theorem summary_accounting {st : Store} (h : Reachable st) :
    onlineCount st + offlineCount st = totalCount st
    ∧ offlineCount st = (st.filter (fun e => e.2.status == "offline")).length
    ∧ ∀ e ∈ st, e.2.status = "online" ∨ e.2.status = "offline" := by
  have hs := statuses_reachable h
  have hf := filter_online_add_offline st hs
  have hon : onlineCount st = (st.filter (fun e => e.2.status == "online")).length := rfl
  have hoff : offlineCount st = totalCount st - onlineCount st := rfl
  have htot : totalCount st = st.length := rfl
  exact ⟨by omega, by omega, hs⟩

/-- Witness for C6: a store reached by one delivered message followed by one
sweep satisfies the accounting invariant. -/
theorem summary_accounting_witness :
    onlineCount (sweep 40000 (outcomeStore []
        (processMessage (some (Json.obj [("payload", Json.obj [("id", Json.str "AA:BB:CC:01"),
          ("name", Json.str "Tank1"), ("fields", Json.arr [])])])) 1000 [])))
      + offlineCount (sweep 40000 (outcomeStore []
        (processMessage (some (Json.obj [("payload", Json.obj [("id", Json.str "AA:BB:CC:01"),
          ("name", Json.str "Tank1"), ("fields", Json.arr [])])])) 1000 [])))
      = totalCount (sweep 40000 (outcomeStore []
        (processMessage (some (Json.obj [("payload", Json.obj [("id", Json.str "AA:BB:CC:01"),
          ("name", Json.str "Tank1"), ("fields", Json.arr [])])])) 1000 []))) :=
  (summary_accounting (Reachable.sweeping 40000
    (Reachable.message _ 1000 Reachable.init))).1

/-! ## Ordering policy -/

theorem devLE_total (a b : String) : devLE a b = true ∨ devLE b a = true := by
  unfold devLE
  by_cases h : groupKey a = groupKey b
  · rw [if_pos h, if_pos h.symm]
    rcases le_total a b with hab | hab
    · exact Or.inl (decide_eq_true hab)
    · exact Or.inr (decide_eq_true hab)
  · rw [if_neg h, if_neg (fun hb => h hb.symm)]
    rcases le_total (groupKey a) (groupKey b) with hab | hab
    · exact Or.inl (decide_eq_true hab)
    · exact Or.inr (decide_eq_true hab)

theorem devLE_antisymm (a b : String) (hab : devLE a b = true) (hba : devLE b a = true) :
    a = b := by
  unfold devLE at hab hba
  by_cases h : groupKey a = groupKey b
  · rw [if_pos h] at hab
    rw [if_pos h.symm] at hba
    exact le_antisymm (of_decide_eq_true hab) (of_decide_eq_true hba)
  · rw [if_neg h] at hab
    rw [if_neg (fun hb => h hb.symm)] at hba
    exact absurd (le_antisymm (of_decide_eq_true hab) (of_decide_eq_true hba)) h

theorem devLE_trans (a b c : String) (hab : devLE a b = true) (hbc : devLE b c = true) :
    devLE a c = true := by
  unfold devLE at hab hbc ⊢
  by_cases h1 : groupKey a = groupKey b <;> by_cases h2 : groupKey b = groupKey c
  · rw [if_pos h1] at hab
    rw [if_pos h2] at hbc
    rw [if_pos (h1.trans h2)]
    exact decide_eq_true (le_trans (of_decide_eq_true hab) (of_decide_eq_true hbc))
  · rw [if_pos h1] at hab
    rw [if_neg h2] at hbc
    have hac : groupKey a ≠ groupKey c := fun h => h2 (h1 ▸ h)
    rw [if_neg hac]
    exact decide_eq_true (h1 ▸ of_decide_eq_true hbc)
  · rw [if_neg h1] at hab
    rw [if_pos h2] at hbc
    have hac : groupKey a ≠ groupKey c := fun h => h1 (h.trans h2.symm)
    rw [if_neg hac]
    exact decide_eq_true (h2 ▸ of_decide_eq_true hab)
  · rw [if_neg h1] at hab
    rw [if_neg h2] at hbc
    have hab2 := of_decide_eq_true hab
    have hbc2 := of_decide_eq_true hbc
    have hac : groupKey a ≠ groupKey c := by
      intro h
      exact h1 (le_antisymm hab2 (h ▸ hbc2))
    rw [if_neg hac]
    exact decide_eq_true (le_trans hab2 hbc2)

theorem devLE_iff (a b : String) :
    devLE a b = true ↔ (groupKey a < groupKey b ∨ (groupKey a = groupKey b ∧ a ≤ b)) := by
  unfold devLE
  by_cases h : groupKey a = groupKey b
  · rw [if_pos h]
    simp [h, decide_eq_true_eq, lt_irrefl]
  · rw [if_neg h]
    simp only [decide_eq_true_eq]
    constructor
    · intro hle
      exact Or.inl (lt_of_le_of_ne hle h)
    · rintro (hlt | ⟨heq, _⟩)
      · exact le_of_lt hlt
      · exact absurd heq h

theorem sortedIds_pairwise (l : List String) :
    (sortedIds l).Pairwise (fun a b => devLE a b = true) :=
  List.sorted_mergeSort (fun a b c => devLE_trans a b c)
    (fun a b => by rcases devLE_total a b with h | h <;> simp [h]) l

/-- C7: the display ordering sorts by prefix group (the first three
colon-delimited segments) first and by the full identifier within a group;
the comparator is antisymmetric (no two distinct ids compare equal), the
output is a permutation of the input, and any two inputs holding the same
ids in any enumeration order produce the identical output sequence. -/
theorem order_deterministic_and_grouped (ids ids2 : List String) (hperm : ids.Perm ids2) :
    sortedIds ids = sortedIds ids2
    ∧ (sortedIds ids).Perm ids
    ∧ (sortedIds ids).Pairwise
        (fun a b => groupKey a < groupKey b ∨ (groupKey a = groupKey b ∧ a ≤ b))
    ∧ ∀ a b : String, devLE a b = true → devLE b a = true → a = b := by
  refine ⟨?_, List.mergeSort_perm ids devLE, ?_, devLE_antisymm⟩
  · have h1 : (sortedIds ids).Perm (sortedIds ids2) :=
      ((List.mergeSort_perm ids devLE).trans hperm).trans
        (List.mergeSort_perm ids2 devLE).symm
    exact @List.eq_of_perm_of_sorted String (fun a b => devLE a b = true)
      ⟨devLE_antisymm⟩ _ _ h1 (sortedIds_pairwise ids) (sortedIds_pairwise ids2)
  · exact (sortedIds_pairwise ids).imp (fun hab => (devLE_iff _ _).mp hab)

/-- Witness for C7 on the spec's scenario ids: a shuffled input yields the
same output, the output is a permutation of the input, is sorted by group
then id, and the comparator is antisymmetric. -/
theorem order_deterministic_and_grouped_witness :
    sortedIds ["AA:BB:CC:02", "AA:00:00:01", "AA:BB:CC:01"]
      = sortedIds ["AA:00:00:01", "AA:BB:CC:01", "AA:BB:CC:02"]
    ∧ (sortedIds ["AA:BB:CC:02", "AA:00:00:01", "AA:BB:CC:01"]).Perm
        ["AA:BB:CC:02", "AA:00:00:01", "AA:BB:CC:01"]
    ∧ (sortedIds ["AA:BB:CC:02", "AA:00:00:01", "AA:BB:CC:01"]).Pairwise
        (fun a b => groupKey a < groupKey b ∨ (groupKey a = groupKey b ∧ a ≤ b))
    ∧ ∀ a b : String, devLE a b = true → devLE b a = true → a = b :=
  order_deterministic_and_grouped ["AA:BB:CC:02", "AA:00:00:01", "AA:BB:CC:01"]
    ["AA:00:00:01", "AA:BB:CC:01", "AA:BB:CC:02"] (by decide)

/-! ## Decoder boundary behaviour -/

theorem processMessage_no_payload (now : Int) (prev : Store) (entries : List (String × Json))
    (h : getProp (Json.obj entries) "payload" = none) :
    processMessage (some (Json.obj entries)) now prev = Outcome.threwTypeError := by
  have heq : processMessage (some (Json.obj entries)) now prev
      = match getProp (Json.obj entries) "payload" with
        | none => Outcome.threwTypeError
        | some Json.null => Outcome.threwTypeError
        | some payload =>
          match latestOf (getProp payload "fields") with
          | Json.null => Outcome.threwTypeError
          | latest =>
            Outcome.applied (applyEvent prev (getProp payload "id")
              (getProp payload "name") latest now) := rfl
  rw [heq, h]

theorem processMessage_envelope_obj (now : Int) (prev : Store) (entries : List (String × Json))
    (h : latestOf (getProp (Json.obj entries) "fields") = Json.obj []) :
    processMessage (some (Json.obj [("payload", Json.obj entries)])) now prev
      = Outcome.applied (applyEvent prev (getProp (Json.obj entries) "id")
          (getProp (Json.obj entries) "name") (Json.obj []) now) := by
  have heq : processMessage (some (Json.obj [("payload", Json.obj entries)])) now prev
      = match latestOf (getProp (Json.obj entries) "fields") with
        | Json.null => Outcome.threwTypeError
        | latest =>
          Outcome.applied (applyEvent prev (getProp (Json.obj entries) "id")
            (getProp (Json.obj entries) "name") latest now) := rfl
  rw [heq, h]

/-- A message with a well-formed envelope whose `fields` array is empty. -/
def emptyFieldsMsg : Json :=
  Json.obj [("payload", Json.obj [("id", Json.str "AA:BB:CC:01"),
    ("name", Json.str "Tank1"), ("fields", Json.arr [])])]

/-- C2 counterexample: a message with empty `fields` is not dropped — the
snapshot gains a device (total goes from 0 to 1) — and a parsed JSON object
with no `payload` key makes the handler end in an uncaught `TypeError`
rather than a silent drop. -/
theorem decoder_claim_counterexample :
    totalCount (outcomeStore [] (processMessage (some emptyFieldsMsg) 1000 [])) = 1
    ∧ totalCount ([] : Store) = 0
    ∧ processMessage (some (Json.obj [])) 1000 [] = Outcome.threwTypeError :=
  ⟨rfl, rfl, rfl⟩

/-- C2 (amended): only raw text on which `JSON.parse` throws, and a message
parsing to JSON `null`, are dropped silently with the snapshot unchanged. A
parse result with no usable `payload` (missing key, non-object parse result,
or `null` payload) also leaves the snapshot unchanged, but the destructuring
`TypeError` escapes past the handler, because the destructuring sits after
the `catch`. Missing or empty `fields` is not treated as malformed: the
event decodes with an empty sample and is applied, mutating the store. -/
theorem decoder_error_paths (now : Int) (prev : Store) (parsed payload : Json) :
    (processMessage none now prev = Outcome.droppedSilently
      ∧ outcomeStore prev (processMessage none now prev) = prev)
    ∧ (processMessage (some Json.null) now prev = Outcome.droppedSilently
      ∧ outcomeStore prev (processMessage (some Json.null) now prev) = prev)
    ∧ (parsed ≠ Json.null → getProp parsed "payload" = none →
        processMessage (some parsed) now prev = Outcome.threwTypeError
        ∧ outcomeStore prev (processMessage (some parsed) now prev) = prev)
    ∧ (payload ≠ Json.null →
        (getProp payload "fields" = none ∨ getProp payload "fields" = some (Json.arr [])) →
        processMessage (some (Json.obj [("payload", payload)])) now prev
          = Outcome.applied (applyEvent prev (getProp payload "id")
              (getProp payload "name") (Json.obj []) now)) := by
  refine ⟨⟨rfl, rfl⟩, ⟨rfl, rfl⟩, ?_, ?_⟩
  · intro hnn hp
    have ht : processMessage (some parsed) now prev = Outcome.threwTypeError := by
      cases parsed with
      | null => exact absurd rfl hnn
      | bool b => rfl
      | num n => rfl
      | str s => rfl
      | arr elems => rfl
      | obj entries => exact processMessage_no_payload now prev entries hp
    exact ⟨ht, by rw [ht]; rfl⟩
  · intro hnn hf
    have hlat : latestOf (getProp payload "fields") = Json.obj [] := by
      rcases hf with hf | hf <;> rw [hf] <;> rfl
    cases payload with
    | null => exact absurd rfl hnn
    | bool b => rfl
    | num n => rfl
    | str s => rfl
    | arr elems => rfl
    | obj entries => exact processMessage_envelope_obj now prev entries hlat

/-- Witness for the amended C2: a parsed `\x7b\x7d` throws, and an envelope
whose payload has no `fields` is applied. -/
theorem decoder_error_paths_witness :
    processMessage (some (Json.obj [])) 0 [] = Outcome.threwTypeError
    ∧ processMessage (some (Json.obj [("payload",
        Json.obj [("id", Json.str "AA:BB:CC:01")])])) 0 []
      = Outcome.applied (applyEvent []
          (getProp (Json.obj [("id", Json.str "AA:BB:CC:01")]) "id")
          (getProp (Json.obj [("id", Json.str "AA:BB:CC:01")]) "name") (Json.obj []) 0) :=
  ⟨((decoder_error_paths 0 [] (Json.obj []) (Json.obj [("id", Json.str "AA:BB:CC:01")])).2.2.1
      (fun h => Json.noConfusion h) rfl).1,
    (decoder_error_paths 0 [] (Json.obj []) (Json.obj [("id", Json.str "AA:BB:CC:01")])).2.2.2
      (fun h => Json.noConfusion h) (Or.inl rfl)⟩

/-! ## Source-timestamp handling -/

/-- A message whose single reading carries no `timestamp` key. -/
def noTimestampMsg : Json :=
  Json.obj [("payload", Json.obj [("id", Json.str "AA:BB:CC:01"),
    ("name", Json.str "Tank1"),
    ("fields", Json.arr [Json.obj [("ph", Json.num 7), ("temp", Json.num 22)]])])]

/-- C3 counterexample: delivering a reading with no `timestamp` at receipt
time 5000 stores a history entry whose time is an Invalid Date (`none`), not
the engine's receipt time (`some 5000`): the code performs no fallback to
its own clock for the chart time. -/
theorem invalid_date_counterexample :
    (storeGet (outcomeStore [] (processMessage (some noTimestampMsg) 5000 []))
        "AA:BB:CC:01").map (fun dev => dev.history.map HistoryEntry.time)
      = some [none]
    ∧ some [(none : Option Int)] ≠ some [some (5000 : Int)] := by
  constructor
  · have hkey : jsKeyString (some (Json.str "AA:BB:CC:01")) = "AA:BB:CC:01" := by
      simp [jsKeyString, jsToString]
    have happ : outcomeStore [] (processMessage (some noTimestampMsg) 5000 [])
        = [(jsKeyString (some (Json.str "AA:BB:CC:01")),
            { name := some (Json.str "Tank1")
              history := [mkEntry (Json.obj [("ph", Json.num 7), ("temp", Json.num 22)])]
              lastSeen := 5000
              status := "online" })] := rfl
    rw [happ, hkey]
    rfl
  · decide

theorem getLast?_sliceLast_append (l : List HistoryEntry) (e : HistoryEntry) :
    (sliceLast 20 (l ++ [e])).getLast? = some e := by
  rw [sliceLast_eq_reverse_take, List.reverse_append, List.reverse_singleton,
    List.singleton_append, show (20 : Nat) = 19 + 1 from rfl, List.take_succ_cons,
    List.reverse_cons, List.getLast?_concat]

/-- C3 (amended): an event whose reading's `timestamp` is absent or does not
coerce to a number is still applied — the device is created or updated, with
`lastSeen` set to the receipt time and status `"online"` — but the stored
history entry's chart time is an Invalid Date (`none`), not the engine's
receipt time. -/
theorem missing_timestamp_still_applied (prev : Store) (id name : Option Json)
    (latest : Json) (now : Int)
    (h : toNumber (getProp latest "timestamp") = none) :
    (mkEntry latest).time = none
    ∧ ∃ dev, storeGet (applyEvent prev id name latest now) (jsKeyString id) = some dev
        ∧ dev.lastSeen = now
        ∧ dev.status = "online"
        ∧ dev.history.getLast? = some (mkEntry latest) := by
  refine ⟨by simp [mkEntry, h], ?_⟩
  refine ⟨⟨name, sliceLast 20 (histOf prev (jsKeyString id) ++ [mkEntry latest]),
    now, "online"⟩, ?_, rfl, rfl, ?_⟩
  · unfold applyEvent
    exact storeGet_upsert_self prev (jsKeyString id) _
  · exact getLast?_sliceLast_append _ _

/-- Witness for the amended C3 at a reading with no `timestamp`. -/
theorem missing_timestamp_still_applied_witness :
    (mkEntry (Json.obj [])).time = none
    ∧ ∃ dev, storeGet (applyEvent [] (some (Json.str "AA:BB:CC:01"))
          (some (Json.str "Tank1")) (Json.obj []) 5000)
          (jsKeyString (some (Json.str "AA:BB:CC:01"))) = some dev
        ∧ dev.lastSeen = 5000
        ∧ dev.status = "online"
        ∧ dev.history.getLast? = some (mkEntry (Json.obj [])) :=
  missing_timestamp_still_applied [] (some (Json.str "AA:BB:CC:01"))
    (some (Json.str "Tank1")) (Json.obj []) 5000 rfl

/-! ## Empty and absent `fields` -/

/-- C8: a payload whose `fields` is empty or absent is not rejected: the
selected sample is the empty object — every metric key reads as absent —
and the message is applied to the store like any other, upserting the
device; when `fields` is a non-empty array, the selected sample is its last
element. -/
theorem empty_fields_not_rejected (prev : Store) (now : Int) (payload : Json)
    (hnn : payload ≠ Json.null)
    (hf : getProp payload "fields" = none ∨ getProp payload "fields" = some (Json.arr [])) :
    latestOf (getProp payload "fields") = Json.obj []
    ∧ (∀ k, getProp (Json.obj []) k = none)
    ∧ processMessage (some (Json.obj [("payload", payload)])) now prev
        = Outcome.applied (applyEvent prev (getProp payload "id")
            (getProp payload "name") (Json.obj []) now)
    ∧ (∃ dev, storeGet (applyEvent prev (getProp payload "id") (getProp payload "name")
          (Json.obj []) now) (jsKeyString (getProp payload "id")) = some dev)
    ∧ ∀ (elems : List Json) (hne : elems ≠ []),
        latestOf (some (Json.arr elems)) = elems.getLast hne := by
  have hlat : latestOf (getProp payload "fields") = Json.obj [] := by
    rcases hf with hf | hf <;> rw [hf] <;> rfl
  refine ⟨hlat, fun k => rfl, ?_, ?_, ?_⟩
  · cases payload with
    | null => exact absurd rfl hnn
    | bool b => rfl
    | num n => rfl
    | str s => rfl
    | arr elems => rfl
    | obj entries => exact processMessage_envelope_obj now prev entries hlat
  · refine ⟨⟨getProp payload "name",
      sliceLast 20 (histOf prev (jsKeyString (getProp payload "id"))
        ++ [mkEntry (Json.obj [])]), now, "online"⟩, ?_⟩
    unfold applyEvent
    exact storeGet_upsert_self prev (jsKeyString (getProp payload "id")) _
  · intro elems hne
    cases elems with
    | nil => exact absurd rfl hne
    | cons a l =>
      show (a :: l).getLastD (Json.obj []) = (a :: l).getLast hne
      rw [List.getLastD_eq_getLast?, List.getLast?_eq_getLast _ hne, Option.getD_some]

/-- Witness for C8: an envelope whose payload has no `fields` key decodes to
the empty sample and is applied. -/
theorem empty_fields_not_rejected_witness :
    latestOf (getProp (Json.obj [("id", Json.str "AA:BB:CC:01"),
        ("name", Json.str "Tank1")]) "fields") = Json.obj []
    ∧ processMessage (some (Json.obj [("payload",
        Json.obj [("id", Json.str "AA:BB:CC:01"), ("name", Json.str "Tank1")])])) 1000 []
      = Outcome.applied (applyEvent []
          (getProp (Json.obj [("id", Json.str "AA:BB:CC:01"),
            ("name", Json.str "Tank1")]) "id")
          (getProp (Json.obj [("id", Json.str "AA:BB:CC:01"),
            ("name", Json.str "Tank1")]) "name") (Json.obj []) 1000) := by
  have h := empty_fields_not_rejected [] 1000
    (Json.obj [("id", Json.str "AA:BB:CC:01"), ("name", Json.str "Tank1")])
    (fun hn => Json.noConfusion hn) (Or.inl rfl)
  exact ⟨h.1, h.2.2.1⟩

end MqttDashboard
